import Mathlib

/-!
Verification of `slack_history.py`, a script that exports Slack message
history (public channels, private channels, direct messages) to JSON files.

The development shallowly embeds the script:

* `getHistory` — the cursor-paginated history-fetch loop (the script's
  `getHistory`), written with explicit fuel for the `while True:` loop.
  The remote endpoint is a function from a cursor (`latest`, an optional
  timestamp string) and a page count to either a `HistoryPage` or an error
  (a raised exception in Python).  The embedding also records the cursor of
  every request issued, so request counts and request arguments can be
  stated.
* `serveRemote` — a model of a remote conversation holding a fixed
  newest-first message list, answering cursor requests the way the Slack
  history API is described to.
* an effect-trace embedding of the orchestration (`getChannels`,
  `getPrivateChannels`, `getDirectMessages`, argument parsing and the
  `__main__` block), where every remote call, directory creation, file
  write and console print is recorded as an `Effect`.
-/

/-- A message as the script sees it: the only field the script reads is the
timestamp `ts` (`messages[-1]['ts']`); everything else is passed through
opaquely, so it is not modelled. -/
structure Msg where
  ts : String
deriving DecidableEq, Repr

/-- Body of one history response: `{messages: [...], has_more: bool}`. -/
structure HistoryPage where
  messages : List Msg
  has_more : Bool
deriving DecidableEq, Repr

/-- Outcome of running `getHistory` with enough fuel: a normal return with
the accumulated messages, a raised remote error (propagated exception), or
the `IndexError` raised by `messages[-1]` on an empty list. -/
inductive HOut (ε : Type) where
  | ok (msgs : List Msg)
  | remoteErr (e : ε)
  | indexErr
deriving DecidableEq, Repr

/-- Loop of `getHistory` (`slack_history.py` lines 45–59).  `pageableObject`
is the remote history endpoint with the channel id already applied: given
`latest` and `count` it answers with a page or fails.  The function returns
the list of `latest` cursors of the requests it issued, in order, together
with `some` outcome, or `none` when the fuel ran out (the Python loop would
still be running).  On an error the cursor of the failing request is the
last one recorded and the error is returned as is. -/
def getHistoryAux {ε : Type} (pageableObject : Option String → Nat → Except ε HistoryPage)
    (pageSize : Nat) : Nat → List Msg → Option String →
    List (Option String) × Option (HOut ε)
  | 0, _, _ => ([], none)
  | fuel + 1, messages, lastTimestamp =>
    match pageableObject lastTimestamp pageSize with
    | .error e => ([lastTimestamp], some (.remoteErr e))
    | .ok response =>
      let messages' := messages ++ response.messages
      if response.has_more then
        match messages'.getLast? with
        | some m =>
          let r := getHistoryAux pageableObject pageSize fuel messages' (some m.ts)
          (lastTimestamp :: r.1, r.2)
        | none => ([lastTimestamp], some .indexErr)
      else ([lastTimestamp], some (.ok messages'))

/-- Entry point of `getHistory` (`slack_history.py` lines 41–59): the
accumulator starts empty and the cursor unset (`lastTimestamp = None`).
The script's default page size is 100; callers of this embedding pass it
explicitly. -/
def getHistory {ε : Type} (pageableObject : Option String → Nat → Except ε HistoryPage)
    (fuel : Nat) (pageSize : Nat) : List (Option String) × Option (HOut ε) :=
  getHistoryAux pageableObject pageSize fuel [] none

/-- Modelled from the spec: the remote conversation store (the Slack API
client library is not part of this repository).  `msgs` is the conversation's
full message list, newest first.  A request with cursor `none` starts at the
newest message; a request with cursor `some t` starts strictly after the
first message whose timestamp is `t` (the messages older than the cursor). -/
def serveAfter (msgs : List Msg) : Option String → List Msg
  | none => msgs
  | some t => ((msgs.dropWhile (fun m => m.ts ≠ t)).drop 1)

/-- Modelled from the spec: the remote answers a request with cursor
`cursor` and page size `count` by the first `count` messages at or after the
cursor position, and sets `has_more` exactly when older messages remain. -/
def serveRemote (msgs : List Msg) (cursor : Option String) (count : Nat) : HistoryPage :=
  let rest := serveAfter msgs cursor
  ⟨rest.take count, decide (count < rest.length)⟩

/-- Cursor value the fetch loop holds after having accumulated the first `j`
messages of `msgs`: `none` when `j = 0`, otherwise the timestamp of the
`j`-th message. -/
def cursorAt (msgs : List Msg) (j : Nat) : Option String :=
  ((msgs.take j).getLast?).map Msg.ts

/-- Number of requests the loop issues for a conversation of `m` messages at
page size `P` (one request even when `m = 0`): `⌈m / P⌉` rounded up, but at
least 1. -/
def pagesNeeded (m P : Nat) : Nat := (m - 1) / P + 1

/-- Ceiling division, as the spec's `ceil(N/P)`. -/
def ceilDiv (n p : Nat) : Nat := (n + p - 1) / p

/-- Cursors of the requests the loop issues against `serveRemote msgs` at
page size `P`, starting from the state where the first `j` messages are
already accumulated. -/
def traceFrom (msgs : List Msg) (P j : Nat) : List (Option String) :=
  (List.range (pagesNeeded (msgs.length - j) P)).map (fun i => cursorAt msgs (j + i * P))

/-- A public channel as returned by `channels.list`: the script reads
`channel['id']` and `channel['name']`. -/
structure Channel where
  id : String
  name : String
deriving DecidableEq, Repr

/-- A private channel (group) as returned by `groups.list`: the script reads
`group['id']`, `group['name']` and `group['members']`. -/
structure SlackGroup where
  id : String
  name : String
  members : List String
deriving DecidableEq, Repr

/-- A direct-message conversation as returned by `im.list`: the script reads
`dm['id']` and `dm['user']`. -/
structure Im where
  id : String
  user : String
deriving DecidableEq, Repr

/-- A member as returned by `users.list`: the script reads `user['id']` and
`user['name']`. -/
structure User where
  id : String
  name : String
deriving DecidableEq, Repr

/-- Modelled from the spec: the remote Slack workspace the script talks to
(the API client library is not part of this repository).  The list/info
calls answer from the fixed fields; `history` is the per-conversation
paginated endpoint, fallible like the real network call. -/
structure World (ε : Type) where
  channels : List Channel
  groups : List SlackGroup
  ims : List Im
  users : List User
  authTeam : String
  authUser : String
  authUserId : String
  history : String → Option String → Nat → Except ε HistoryPage

/-- Observable actions of one run: every remote API call, directory
creation, file write and console print, in program order. -/
inductive Effect where
  | authTestCall
  | usersListCall
  | channelsListCall
  | groupsListCall
  | imListCall
  | channelInfoCall (id : String)
  | groupInfoCall (id : String)
  | historyCall (channelId : String) (latest : Option String) (count : Nat)
  | mkdirCall (dir : String)
  | fileWriteCall (path : String)
  | consoleOut (line : String)
deriving DecidableEq, Repr

/-- True exactly on history requests. -/
def Effect.isHistoryCall : Effect → Bool
  | .historyCall _ _ _ => true
  | _ => false

/-- True exactly on `channels.info` / `groups.info` requests. -/
def Effect.isInfoCall : Effect → Bool
  | .channelInfoCall _ => true
  | .groupInfoCall _ => true
  | _ => false

/-- True exactly on directory creations. -/
def Effect.isMkdirCall : Effect → Bool
  | .mkdirCall _ => true
  | _ => false

/-- True exactly on file writes. -/
def Effect.isFileWriteCall : Effect → Bool
  | .fileWriteCall _ => true
  | _ => false

/-- The user map the script builds in `getUserMap` (lines 131–138): one
binding `user['id'] ↦ user['name']` per listed user, in list order. -/
def getUserMap (users : List User) : List (String × String) :=
  users.map (fun u => (u.id, u.name))

/-- Python `dict.get(key, default)` on a dict built by inserting the
bindings in order: the last binding of a key wins, a missing key yields the
default. -/
def dictGet (m : List (String × String)) (key dflt : String) : String :=
  match m.reverse.find? (fun p => p.1 == key) with
  | some p => p.2
  | none => dflt

/-- Console line `"writing {n} records to {path}"`. -/
def writingLine (n : Nat) (path : String) : String :=
  "writing " ++ toString n ++ " records to " ++ path

/-- Per-channel loop of `getChannels` (lines 76–83): print, fetch history,
fetch channel info, write `channels/<name>.json`.  A history failure (or
exhausted fuel) aborts the run: the flag turns `false` and no further
channel is processed. -/
def exportChannels {ε : Type} (hist : String → Option String → Nat → Except ε HistoryPage)
    (fuel : Nat) : List Channel → List Effect × Bool
  | [] => ([], true)
  | c :: rest =>
    let pre := [Effect.consoleOut ("getting history for channel " ++ c.name)]
    let r := getHistory (hist c.id) fuel 100
    let reqs := r.1.map (fun cur => Effect.historyCall c.id cur 100)
    match r.2 with
    | some (.ok msgs) =>
      let path := "channels/" ++ c.name ++ ".json"
      let post := [Effect.channelInfoCall c.id,
                   Effect.consoleOut (writingLine msgs.length path),
                   Effect.fileWriteCall path]
      let r2 := exportChannels hist fuel rest
      (pre ++ reqs ++ post ++ r2.1, r2.2)
    | _ => (pre ++ reqs, false)

/-- `getChannels` (lines 66–83): list channels, print them, and unless
`dryRun` create `channels/` and export each channel. -/
def getChannels {ε : Type} (w : World ε) (dryRun : Bool) (fuel : Nat) : List Effect × Bool :=
  let listed := Effect.channelsListCall :: Effect.consoleOut "\nfound channels: "
      :: w.channels.map (fun c => Effect.consoleOut c.name)
  if dryRun then (listed, true)
  else
    let r := exportChannels w.history fuel w.channels
    (listed ++ [Effect.mkdirCall "channels"] ++ r.1, r.2)

/-- Per-group loop of `getPrivateChannels` (lines 120–128). -/
def exportGroups {ε : Type} (hist : String → Option String → Nat → Except ε HistoryPage)
    (fuel : Nat) : List SlackGroup → List Effect × Bool
  | [] => ([], true)
  | g :: rest =>
    let pre := [Effect.consoleOut ("getting history for private channel " ++ g.name ++ " with id " ++ g.id)]
    let r := getHistory (hist g.id) fuel 100
    let reqs := r.1.map (fun cur => Effect.historyCall g.id cur 100)
    match r.2 with
    | some (.ok msgs) =>
      let path := "private_channels/" ++ g.name ++ ".json"
      let post := [Effect.groupInfoCall g.id,
                   Effect.consoleOut (writingLine msgs.length path),
                   Effect.fileWriteCall path]
      let r2 := exportGroups hist fuel rest
      (pre ++ reqs ++ post ++ r2.1, r2.2)
    | _ => (pre ++ reqs, false)

/-- `getPrivateChannels` (lines 109–128): list groups, print each with its
member count, and unless `dryRun` create `private_channels/` and export
each group. -/
def getPrivateChannels {ε : Type} (w : World ε) (dryRun : Bool) (fuel : Nat) : List Effect × Bool :=
  let listed := Effect.groupsListCall :: Effect.consoleOut "\nfound private channels:"
      :: w.groups.map (fun g =>
           Effect.consoleOut (g.name ++ ": (" ++ toString g.members.length ++ " members)"))
  if dryRun then (listed, true)
  else
    let r := exportGroups w.history fuel w.groups
    (listed ++ [Effect.mkdirCall "private_channels"] ++ r.1, r.2)

/-- Display name for a direct-message conversation (lines 92 and 98):
`userIdNameMap.get(dm['user'], dm['user'] + " (name unknown)")`. -/
def dmName (userIdNameMap : List (String × String)) (userId : String) : String :=
  dictGet userIdNameMap userId (userId ++ " (name unknown)")

/-- Per-conversation loop of `getDirectMessages` (lines 97–105): the channel
info is built locally (`{'members': [dm['user'], ownerId]}`), so no info
call is made. -/
def exportDMs {ε : Type} (hist : String → Option String → Nat → Except ε HistoryPage)
    (userIdNameMap : List (String × String)) (fuel : Nat) : List Im → List Effect × Bool
  | [] => ([], true)
  | dm :: rest =>
    let name := dmName userIdNameMap dm.user
    let pre := [Effect.consoleOut ("getting history for direct messages with " ++ name)]
    let r := getHistory (hist dm.id) fuel 100
    let reqs := r.1.map (fun cur => Effect.historyCall dm.id cur 100)
    match r.2 with
    | some (.ok msgs) =>
      let path := "direct_messages/" ++ name ++ ".json"
      let post := [Effect.consoleOut (writingLine msgs.length path),
                   Effect.fileWriteCall path]
      let r2 := exportDMs hist userIdNameMap fuel rest
      (pre ++ reqs ++ post ++ r2.1, r2.2)
    | _ => (pre ++ reqs, false)

/-- `getDirectMessages` (lines 87–105): list IMs, print the partner names,
and unless `dryRun` create `direct_messages/` and export each conversation. -/
def getDirectMessages {ε : Type} (w : World ε) (userIdNameMap : List (String × String))
    (dryRun : Bool) (fuel : Nat) : List Effect × Bool :=
  let listed := Effect.imListCall
      :: Effect.consoleOut "\nfound direct messages (1:1) with the following users:"
      :: w.ims.map (fun dm => Effect.consoleOut (dmName userIdNameMap dm.user))
  if dryRun then (listed, true)
  else
    let r := exportDMs w.history userIdNameMap fuel w.ims
    (listed ++ [Effect.mkdirCall "direct_messages"] ++ r.1, r.2)

/-- Parsed command-line flags (lines 149–177).  `--token` carries a value
when present; the four flags are `store_true` with default `False`. -/
structure Args where
  token : Option String
  dryRun : Bool
  skipPrivateChannels : Bool
  skipChannels : Bool
  skipDirectMessages : Bool
deriving DecidableEq, Repr

/-- Argparse loop over the argument vector: `--token` consumes the next
argument as its value (and errors when it is missing), each flag sets its
field, anything else is an argparse error (`none`).  Note the parser
declares `--token` without `required=True`, so an empty argument vector
parses successfully with `token = None`. -/
def parseArgsFrom (acc : Args) : List String → Option Args
  | [] => some acc
  | "--token" :: v :: rest => parseArgsFrom { acc with token := some v } rest
  | ["--token"] => none
  | "--dryRun" :: rest => parseArgsFrom { acc with dryRun := true } rest
  | "--skipPrivateChannels" :: rest => parseArgsFrom { acc with skipPrivateChannels := true } rest
  | "--skipChannels" :: rest => parseArgsFrom { acc with skipChannels := true } rest
  | "--skipDirectMessages" :: rest => parseArgsFrom { acc with skipDirectMessages := true } rest
  | _ => none

/-- `parser.parse_args()` on an argument vector, starting from the argparse
defaults. -/
def parseArgs (argv : List String) : Option Args :=
  parseArgsFrom ⟨none, false, false, false, false⟩ argv

/-- Body of the `__main__` block after argument parsing (lines 179–203):
auth probe, user map, `metadata.json` unless dry-run, then the three
enumerators gated by their skip flags.  An aborting failure in one
enumerator (flag `false`) stops the run: later enumerators do not execute,
as an uncaught Python exception would. -/
def mainRun {ε : Type} (w : World ε) (args : Args) (fuel : Nat) : List Effect × Bool :=
  let base := [Effect.authTestCall,
               Effect.consoleOut ("Successfully authenticated for team " ++ w.authTeam
                 ++ " and user " ++ w.authUser ++ " "),
               Effect.usersListCall,
               Effect.consoleOut ("found " ++ toString w.users.length ++ " users ")]
      ++ (if args.dryRun then []
          else [Effect.consoleOut "writing metadata", Effect.fileWriteCall "metadata.json"])
  let userIdNameMap := getUserMap w.users
  let r1 := if args.skipChannels then ([], true) else getChannels w args.dryRun fuel
  if r1.2 = false then (base ++ r1.1, false)
  else
    let r2 := if args.skipPrivateChannels then ([], true) else getPrivateChannels w args.dryRun fuel
    if r2.2 = false then (base ++ r1.1 ++ r2.1, false)
    else
      let r3 := if args.skipDirectMessages then ([], true)
                else getDirectMessages w userIdNameMap args.dryRun fuel
      (base ++ r1.1 ++ r2.1 ++ r3.1, r3.2)

/-- Whole program: parse the argument vector; on parse success run the
export against the world.  `none` is an argparse failure (the process exits
before any remote call). -/
def runProgram {ε : Type} (w : World ε) (argv : List String) (fuel : Nat) :
    Option (List Effect × Bool) :=
  (parseArgs argv).map (fun args => mainRun w args fuel)

/-- Proposition that the fetch loop, started at accumulator `acc` and cursor
`cursor`, eventually receives a page whose `has_more` flag is false and so
returns normally; each intermediate step follows the code's cursor update
(`lastTimestamp = messages[-1]['ts']`). -/
inductive NormalHalts {ε : Type} (remote : Option String → Nat → Except ε HistoryPage)
    (P : Nat) : List Msg → Option String → Prop where
  | stop (acc : List Msg) (cursor : Option String) (page : HistoryPage)
      (hpage : remote cursor P = .ok page) (hmore : page.has_more = false) :
      NormalHalts remote P acc cursor
  | step (acc : List Msg) (cursor : Option String) (page : HistoryPage) (m : Msg)
      (hpage : remote cursor P = .ok page) (hmore : page.has_more = true)
      (hlast : (acc ++ page.messages).getLast? = some m)
      (hrest : NormalHalts remote P (acc ++ page.messages) (some m.ts)) :
      NormalHalts remote P acc cursor

/-- Small concrete workspace used to evaluate whole runs on explicit
inputs: one channel, one group, one direct message with an unlisted user,
and a remote whose every conversation is empty. -/
def exWorld : World Unit where
  channels := [⟨"C1", "general"⟩]
  groups := [⟨"G1", "secret", ["U1", "U2"]⟩]
  ims := [⟨"D1", "U9"⟩]
  users := [⟨"U1", "alice"⟩]
  authTeam := "team"
  authUser := "alice"
  authUserId := "U1"
  history := fun _ _ _ => .ok ⟨[], false⟩

/-! ## Theorems about the history-fetch loop -/

/-- C2: for every remote whose first page response has `has_more = false`,
`getHistory` terminates after exactly one history request (the request
trace is `[none]`) and returns exactly that page's messages, whatever the
number of messages in the page. -/
theorem getHistory_first_page_no_more {ε : Type}
    (remote : Option String → Nat → Except ε HistoryPage) (P fuel : Nat)
    (page : HistoryPage) (hpage : remote none P = .ok page)
    (hmore : page.has_more = false) :
    getHistory remote (fuel + 1) P = ([none], some (.ok page.messages)) := by
  unfold getHistory getHistoryAux
  rw [hpage]
  simp [hmore]

/-- Witness for C2 at a remote whose single page holds three messages while
the page size is 2. -/
theorem getHistory_first_page_no_more_witness :
    getHistory (fun _ _ => (Except.ok ⟨[⟨"7"⟩, ⟨"6"⟩, ⟨"5"⟩], false⟩ : Except Unit HistoryPage)) 1 2
      = ([none], some (.ok [⟨"7"⟩, ⟨"6"⟩, ⟨"5"⟩])) :=
  getHistory_first_page_no_more _ 2 0 ⟨[⟨"7"⟩, ⟨"6"⟩, ⟨"5"⟩], false⟩ rfl rfl

/-- C3: a conversation with zero messages (the remote answers the first
request with an empty message list and `has_more = false`) makes
`getHistory` issue exactly one request and return the empty sequence. -/
theorem getHistory_empty_conversation {ε : Type}
    (remote : Option String → Nat → Except ε HistoryPage) (P fuel : Nat)
    (hpage : remote none P = .ok ⟨[], false⟩) :
    getHistory remote (fuel + 1) P = ([none], some (.ok [])) := by
  unfold getHistory getHistoryAux
  rw [hpage]
  simp

/-- Witness for C3: the model remote of an empty conversation. -/
theorem getHistory_empty_conversation_witness :
    getHistory (fun c n => (Except.ok (serveRemote [] c n) : Except Unit HistoryPage)) 3 2
      = ([none], some (.ok [])) :=
  getHistory_empty_conversation _ 2 2 rfl

/-- C5: when the request the loop is about to issue fails (authentication,
network, rate limiting — any error value), the failure propagates to the
caller unmodified: from any loop state the failing request is issued once
(no retry), the very same error is returned, and no accumulated messages
are returned with it; in particular a first-request failure makes the whole
call return that error after the single request. -/
theorem getHistory_error_propagates {ε : Type}
    (remote : Option String → Nat → Except ε HistoryPage) (P fuel : Nat) (e : ε) :
    (∀ (acc : List Msg) (cursor : Option String), remote cursor P = .error e →
      getHistoryAux remote P (fuel + 1) acc cursor = ([cursor], some (.remoteErr e))) ∧
    (remote none P = .error e →
      getHistory remote (fuel + 1) P = ([none], some (.remoteErr e))) := by
  have haux : ∀ (acc : List Msg) (cursor : Option String), remote cursor P = .error e →
      getHistoryAux remote P (fuel + 1) acc cursor = ([cursor], some (.remoteErr e)) := by
    intro acc cursor h
    unfold getHistoryAux
    rw [h]
  exact ⟨haux, fun h => haux [] none h⟩

/-- Witness for C5 at a remote that always fails with error "network". -/
theorem getHistory_error_propagates_witness :
    getHistoryAux (fun _ _ => (Except.error "network" : Except String HistoryPage)) 2 1 [⟨"9"⟩] (some "9")
        = ([some "9"], some (.remoteErr "network")) ∧
    getHistory (fun _ _ => (Except.error "network" : Except String HistoryPage)) 1 2
        = ([none], some (.remoteErr "network")) :=
  ⟨(getHistory_error_propagates _ 2 0 "network").1 [⟨"9"⟩] (some "9") rfl,
   (getHistory_error_propagates _ 2 0 "network").2 rfl⟩

/-- C9: the `messages[-1]` indexing is reached only on a page with
`has_more = true`; it is in range whenever every such page leaves the
accumulated list non-empty (first conjunct: under that precondition the
loop never raises `IndexError`), and for a remote whose first response is
an empty page with `has_more = true` the loop raises `IndexError` after one
request instead of returning or looping (second conjunct). -/
theorem getHistory_index_minus_one {ε : Type}
    (remote : Option String → Nat → Except ε HistoryPage) (P : Nat) :
    ((∀ c n page, remote c n = .ok page → page.has_more = true → page.messages ≠ []) →
      ∀ fuel acc cursor, (getHistoryAux remote P fuel acc cursor).2 ≠ some .indexErr) ∧
    (remote none P = .ok ⟨[], true⟩ →
      ∀ fuel, getHistory remote (fuel + 1) P = ([none], some .indexErr)) := by
  constructor
  · intro hsafe fuel
    induction fuel with
    | zero => intro acc cursor; simp [getHistoryAux]
    | succ n ih =>
      intro acc cursor
      unfold getHistoryAux
      cases hrem : remote cursor P with
      | error e => simp
      | ok page =>
        by_cases hm : page.has_more = true
        · have hne : acc ++ page.messages ≠ [] := by
            have := hsafe cursor P page hrem hm
            simp [this]
          cases hlast : (acc ++ page.messages).getLast? with
          | none => exact absurd (List.getLast?_eq_none_iff.mp hlast) hne
          | some m => simp [hm, hlast]; exact ih _ _
        · simp at hm
          simp [hm]
  · intro h fuel
    unfold getHistory getHistoryAux
    rw [h]
    simp

/-- Witness for C9: a safe remote (single non-empty always-more page) never
yields `IndexError` in one step, and an empty first page with
`has_more = true` yields `IndexError` after the single request. -/
theorem getHistory_index_minus_one_witness :
    (getHistoryAux (fun _ _ => (Except.ok ⟨[⟨"1"⟩], true⟩ : Except Unit HistoryPage)) 2 1 [] none).2
        ≠ some .indexErr ∧
    getHistory (fun _ _ => (Except.ok ⟨[], true⟩ : Except Unit HistoryPage)) 1 2
        = ([none], some .indexErr) :=
  ⟨(getHistory_index_minus_one _ 2).1
      (fun _ _ page h _ => by injection h with h; rw [← h]; simp) 1 [] none,
   (getHistory_index_minus_one _ 2).2 rfl 0⟩

/-! ## Pagination against the modelled remote conversation -/

theorem serveAfter_append (pre : List Msg) (m : Msg) (suf : List Msg)
    (h : ((pre ++ m :: suf).map Msg.ts).Nodup) :
    serveAfter (pre ++ m :: suf) (some m.ts) = suf := by
  induction pre with
  | nil =>
    simp [serveAfter, List.dropWhile_cons]
  | cons p pre ih =>
    have hne : p.ts ≠ m.ts := by
      simp only [List.cons_append, List.map_cons, List.nodup_cons] at h
      intro hc
      exact h.1 (hc ▸ (by simp : m.ts ∈ ((pre ++ m :: suf).map Msg.ts)))
    have h' : ((pre ++ m :: suf).map Msg.ts).Nodup := by
      simp only [List.cons_append, List.map_cons, List.nodup_cons] at h
      exact h.2
    simpa [serveAfter, List.dropWhile_cons, hne] using ih h'

theorem serveAfter_getLast (acc suf : List Msg)
    (h : ((acc ++ suf).map Msg.ts).Nodup) :
    serveAfter (acc ++ suf) (acc.getLast?.map Msg.ts) = suf := by
  rcases List.eq_nil_or_concat acc with rfl | ⟨pre, m, rfl⟩
  · simp [serveAfter]
  · rw [List.concat_eq_append] at h ⊢
    rw [List.getLast?_concat]
    have : pre ++ [m] ++ suf = pre ++ m :: suf := by simp
    rw [this] at h ⊢
    exact serveAfter_append pre m suf h

theorem cursorAt_append (acc suf : List Msg) :
    cursorAt (acc ++ suf) acc.length = acc.getLast?.map Msg.ts := by
  unfold cursorAt
  rw [List.take_left]

theorem pagesNeeded_of_le (m P : Nat) (hP : 0 < P) (h : m ≤ P) :
    pagesNeeded m P = 1 := by
  have hlt : m - 1 < P := by omega
  rw [pagesNeeded, Nat.div_eq_of_lt hlt]

theorem pagesNeeded_step (m P : Nat) (hP : 0 < P) (h : P < m) :
    pagesNeeded m P = pagesNeeded (m - P) P + 1 := by
  unfold pagesNeeded
  have h1 : P ≤ m - 1 := by omega
  rw [Nat.div_eq_sub_div hP h1]
  have h2 : m - 1 - P = m - P - 1 := by omega
  rw [h2]

theorem pagesNeeded_eq_max (n P : Nat) (hP : 0 < P) :
    pagesNeeded n P = max 1 (ceilDiv n P) := by
  cases n with
  | zero =>
    have h0 : ceilDiv 0 P = 0 := by
      unfold ceilDiv
      exact Nat.div_eq_of_lt (by omega)
    simp [pagesNeeded, h0, Nat.div_eq_of_lt hP]
  | succ k =>
    have h1 : ceilDiv (k + 1) P = k / P + 1 := by
      unfold ceilDiv
      have : k + 1 + P - 1 = k + P := by omega
      rw [this, Nat.add_div_right k hP]
    simp [pagesNeeded, h1]

theorem traceFrom_last (msgs : List Msg) (P j : Nat) (hP : 0 < P)
    (h : msgs.length - j ≤ P) :
    traceFrom msgs P j = [cursorAt msgs j] := by
  unfold traceFrom
  rw [pagesNeeded_of_le _ _ hP h]
  simp [List.range_succ]

theorem traceFrom_step (msgs : List Msg) (P j : Nat) (hP : 0 < P)
    (h : P < msgs.length - j) :
    traceFrom msgs P j = cursorAt msgs j :: traceFrom msgs P (j + P) := by
  unfold traceFrom
  rw [pagesNeeded_step _ _ hP h]
  have hsub : msgs.length - (j + P) = msgs.length - j - P := by omega
  rw [hsub, List.range_succ_eq_map, List.map_cons, List.map_map]
  congr 1
  · norm_num
  · apply List.map_congr_left
    intro i _
    show cursorAt msgs (j + (i + 1) * P) = cursorAt msgs (j + P + i * P)
    congr 1
    ring

/-- One unfolding of the fetch loop on a successful response. -/
theorem getHistoryAux_ok_step {ε : Type}
    (remote : Option String → Nat → Except ε HistoryPage) (P n : Nat)
    (acc : List Msg) (cursor : Option String) (page : HistoryPage)
    (h : remote cursor P = .ok page) :
    getHistoryAux remote P (n + 1) acc cursor =
      if page.has_more then
        match (acc ++ page.messages).getLast? with
        | some m =>
          let r := getHistoryAux remote P n (acc ++ page.messages) (some m.ts)
          (cursor :: r.1, r.2)
        | none => ([cursor], some .indexErr)
      else ([cursor], some (.ok (acc ++ page.messages))) := by
  conv_lhs => rw [getHistoryAux]
  rw [h]

/-- Loop invariant of `getHistory` against the modelled remote: from the
state where the accumulator holds a prefix of the conversation and the
cursor is the timestamp of its last message (unset for the empty prefix),
the loop with sufficient fuel returns the whole conversation, issuing
exactly the requests of `traceFrom`. -/
theorem getHistoryAux_serve {ε : Type} (msgs : List Msg) (P : Nat) (hP : 0 < P)
    (nodup : (msgs.map Msg.ts).Nodup) :
    ∀ (fuel : Nat) (acc suf : List Msg), acc ++ suf = msgs →
      pagesNeeded suf.length P ≤ fuel →
      getHistoryAux (fun c k => (Except.ok (serveRemote msgs c k) : Except ε HistoryPage))
          P fuel acc (acc.getLast?.map Msg.ts)
        = (traceFrom msgs P acc.length, some (.ok msgs)) := by
  intro fuel
  induction fuel with
  | zero =>
    intro acc suf heq hfuel
    exfalso
    simp [pagesNeeded] at hfuel
  | succ n ih =>
    intro acc suf heq hfuel
    subst heq
    have hserve : serveAfter (acc ++ suf) (acc.getLast?.map Msg.ts) = suf :=
      serveAfter_getLast acc suf nodup
    have hpage : (fun c k => (Except.ok (serveRemote (acc ++ suf) c k) : Except ε HistoryPage))
        (acc.getLast?.map Msg.ts) P = .ok ⟨suf.take P, decide (P < suf.length)⟩ := by
      simp only [serveRemote, hserve]
    rw [getHistoryAux_ok_step _ _ _ _ _ _ hpage]
    have hlen : (acc ++ suf).length - acc.length = suf.length := by
      simp [List.length_append]
    by_cases hlt : P < suf.length
    · have hmore : (⟨suf.take P, decide (P < suf.length)⟩ : HistoryPage).has_more = true := by
        simpa using hlt
      rw [if_pos hmore]
      have htake_len : (suf.take P).length = P := by
        rw [List.length_take]
        omega
      have hacc_ne : acc ++ suf.take P ≠ [] := by
        intro hc
        have : (suf.take P).length = 0 := by
          rcases List.append_eq_nil.mp hc with ⟨-, h2⟩
          simp [h2]
        omega
      cases hlast : (acc ++ suf.take P).getLast? with
      | none => exact absurd (List.getLast?_eq_none_iff.mp hlast) hacc_ne
      | some m =>
        have hcursor : (acc ++ suf.take P).getLast?.map Msg.ts = some m.ts := by
          rw [hlast]; rfl
        have hrec := ih (acc ++ suf.take P) (suf.drop P)
          (by rw [List.append_assoc, List.take_append_drop])
          (by
            have hstep := pagesNeeded_step suf.length P hP hlt
            rw [List.length_drop]
            omega)
        rw [hcursor] at hrec
        simp only [hrec]
        rw [traceFrom_step (acc ++ suf) P acc.length hP (by omega), cursorAt_append]
        have hlen' : (acc ++ suf.take P).length = acc.length + P := by
          simp [List.length_append, htake_len]
        rw [hlen']
    · rw [if_neg (by simpa using hlt)]
      have htake : suf.take P = suf := List.take_of_length_le (by omega)
      rw [htake, traceFrom_last (acc ++ suf) P acc.length hP (by omega), cursorAt_append]

/-- C1 (amended): for a conversation of `N` messages with pairwise distinct
timestamps served newest-first in pages of size `P > 0`, `getHistory`
starts with an unset cursor, requests pages ending at the current cursor,
advances the cursor to the timestamp of the last appended message while
`has_more` holds, and returns the whole conversation in receipt order with
no reordering or deduplication; the requests issued are exactly those of
`traceFrom` and number `max 1 ⌈N/P⌉` (the claim's `⌈N/P⌉` for `N ≥ 1`, but
one request when `N = 0`). -/
theorem getHistory_paginates {ε : Type} (msgs : List Msg) (P fuel : Nat) (hP : 0 < P)
    (nodup : (msgs.map Msg.ts).Nodup) (hfuel : pagesNeeded msgs.length P ≤ fuel) :
    getHistory (fun c k => (Except.ok (serveRemote msgs c k) : Except ε HistoryPage)) fuel P
      = (traceFrom msgs P 0, some (.ok msgs)) ∧
    (traceFrom msgs P 0).length = max 1 (ceilDiv msgs.length P) := by
  constructor
  · have h := getHistoryAux_serve (ε := ε) msgs P hP nodup fuel [] msgs rfl hfuel
    simpa [getHistory] using h
  · simp [traceFrom, pagesNeeded_eq_max _ _ hP]

/-- Counterexample to C1 as stated: the conversation with `N = 0` messages
at page size `P = 2` makes `getHistory` issue one request (the trace is
`[none]`, of length 1), while the claim's `⌈N/P⌉` is 0. -/
theorem getHistory_paginates_counterexample :
    getHistory (fun c k => (Except.ok (serveRemote [] c k) : Except Unit HistoryPage)) 1 2
        = ([none], some (.ok [])) ∧
    ceilDiv 0 2 = 0 ∧
    ([(none : Option String)].length ≠ ceilDiv 0 2) := by
  refine ⟨?_, by decide, by decide⟩
  decide

/-- Witness for C1 at the spec's example: conversation
`[{ts:"3"},{ts:"2"},{ts:"1"}]`, page size 2 — two requests, the first with
the cursor unset, the second with cursor `"2"`, final result the full
conversation in order. -/
theorem getHistory_paginates_witness :
    getHistory (fun c k => (Except.ok (serveRemote [⟨"3"⟩, ⟨"2"⟩, ⟨"1"⟩] c k) : Except Unit HistoryPage)) 2 2
        = ([none, some "2"], some (.ok [⟨"3"⟩, ⟨"2"⟩, ⟨"1"⟩])) ∧
    ([none, some "2"] : List (Option String)).length = max 1 (ceilDiv 3 2) := by
  have h := getHistory_paginates (ε := Unit) [⟨"3"⟩, ⟨"2"⟩, ⟨"1"⟩] 2 2
    (by decide) (by decide) (by decide)
  exact ⟨h.1.trans (by decide), by decide⟩

/-! ## Termination of the fetch loop -/

/-- One unfolding of the fetch loop on a failing response. -/
theorem getHistoryAux_error_step {ε : Type}
    (remote : Option String → Nat → Except ε HistoryPage) (P n : Nat)
    (acc : List Msg) (cursor : Option String) (e : ε)
    (h : remote cursor P = .error e) :
    getHistoryAux remote P (n + 1) acc cursor = ([cursor], some (.remoteErr e)) := by
  conv_lhs => rw [getHistoryAux]
  rw [h]

theorem normalHalts_of_aux_ok {ε : Type}
    (remote : Option String → Nat → Except ε HistoryPage) (P : Nat) :
    ∀ (fuel : Nat) (acc : List Msg) (cursor : Option String),
      (∃ tr msgs, getHistoryAux remote P fuel acc cursor = (tr, some (.ok msgs))) →
      NormalHalts remote P acc cursor := by
  intro fuel
  induction fuel with
  | zero =>
    rintro acc cursor ⟨tr, msgs, h⟩
    simp [getHistoryAux] at h
  | succ n ih =>
    rintro acc cursor ⟨tr, msgs, h⟩
    cases hrem : remote cursor P with
    | error e =>
      rw [getHistoryAux_error_step _ _ _ _ _ _ hrem] at h
      simp at h
    | ok page =>
      rw [getHistoryAux_ok_step _ _ _ _ _ _ hrem] at h
      by_cases hm : page.has_more = true
      · rw [if_pos hm] at h
        cases hlast : (acc ++ page.messages).getLast? with
        | none => rw [hlast] at h; simp at h
        | some m =>
          rw [hlast] at h
          simp only [Prod.mk.injEq] at h
          refine NormalHalts.step acc cursor page m hrem hm hlast (ih _ _ ?_)
          refine ⟨(getHistoryAux remote P n (acc ++ page.messages) (some m.ts)).1, msgs, ?_⟩
          exact Prod.ext rfl h.2
      · rw [if_neg hm] at h
        exact NormalHalts.stop acc cursor page hrem (by simpa using hm)

theorem aux_ok_of_normalHalts {ε : Type}
    (remote : Option String → Nat → Except ε HistoryPage) (P : Nat)
    (acc : List Msg) (cursor : Option String)
    (h : NormalHalts remote P acc cursor) :
    ∃ fuel tr msgs, getHistoryAux remote P fuel acc cursor = (tr, some (.ok msgs)) := by
  induction h with
  | stop acc cursor page hpage hmore =>
    exact ⟨1, [cursor], acc ++ page.messages, by
      rw [getHistoryAux_ok_step _ _ _ _ _ _ hpage, if_neg (by simp [hmore])]⟩
  | step acc cursor page m hpage hmore hlast hrest ih =>
    obtain ⟨fuel, tr, msgs, hih⟩ := ih
    refine ⟨fuel + 1, cursor :: tr, msgs, ?_⟩
    rw [getHistoryAux_ok_step _ _ _ _ _ _ hpage, if_pos hmore, hlast]
    simp [hih]

theorem aux_diverges {ε : Type}
    (remote : Option String → Nat → Except ε HistoryPage) (P : Nat)
    (hmore : ∀ c n, ∃ page, remote c n = .ok page ∧ page.has_more = true ∧ page.messages ≠ []) :
    ∀ (fuel : Nat) (acc : List Msg) (cursor : Option String),
      (getHistoryAux remote P fuel acc cursor).2 = none := by
  intro fuel
  induction fuel with
  | zero => intro acc cursor; simp [getHistoryAux]
  | succ n ih =>
    intro acc cursor
    obtain ⟨page, hp, hm, hne⟩ := hmore cursor P
    rw [getHistoryAux_ok_step _ _ _ _ _ _ hp, if_pos hm]
    have hacc : acc ++ page.messages ≠ [] := by simp [hne]
    cases hlast : (acc ++ page.messages).getLast? with
    | none => exact absurd (List.getLast?_eq_none_iff.mp hlast) hacc
    | some m => simpa using ih _ _

/-- C10: `getHistory` terminates normally exactly when the remote, followed
along the loop's own cursor updates, eventually answers a request with
`has_more = false` (first conjunct: some fuel suffices iff `NormalHalts`);
and against a remote that always answers `has_more = true` with a non-empty
page, the loop never returns — no amount of fuel yields an outcome (second
conjunct). -/
theorem getHistory_terminates_iff {ε : Type}
    (remote : Option String → Nat → Except ε HistoryPage) (P : Nat) :
    ((∃ fuel tr msgs, getHistory remote fuel P = (tr, some (.ok msgs)))
        ↔ NormalHalts remote P [] none) ∧
    ((∀ c n, ∃ page, remote c n = .ok page ∧ page.has_more = true ∧ page.messages ≠ []) →
      ∀ fuel, (getHistory remote fuel P).2 = none) := by
  constructor
  · constructor
    · rintro ⟨fuel, tr, msgs, h⟩
      exact normalHalts_of_aux_ok remote P fuel [] none ⟨tr, msgs, h⟩
    · intro h
      exact aux_ok_of_normalHalts remote P [] none h
  · intro h fuel
    exact aux_diverges remote P h fuel [] none

/-- Witness for C10: an always-more remote never lets the loop return, and
a single-page remote satisfies `NormalHalts` via the loop's own run. -/
theorem getHistory_terminates_iff_witness :
    (getHistory (fun _ _ => (Except.ok ⟨[⟨"1"⟩], true⟩ : Except String HistoryPage)) 5 2).2 = none ∧
    NormalHalts (fun _ _ => (Except.ok ⟨[⟨"9"⟩], false⟩ : Except String HistoryPage)) 2 [] none :=
  ⟨(getHistory_terminates_iff _ 2).2 (fun _ _ => ⟨⟨[⟨"1"⟩], true⟩, rfl, rfl, by simp⟩) 5,
   (getHistory_terminates_iff _ 2).1.mp ⟨1, [none], [⟨"9"⟩], by decide⟩⟩

/-! ## Orchestration: direct-message naming -/

theorem getUserMap_find_none (users : List User) (id dflt : String)
    (h : ∀ u ∈ users, u.id ≠ id) :
    dictGet (getUserMap users) id dflt = dflt := by
  have hnone : ((getUserMap users).reverse.find? (fun p => p.1 == id)) = none := by
    apply List.find?_eq_none.mpr
    intro x hx
    simp only [getUserMap, List.mem_reverse, List.mem_map] at hx
    obtain ⟨u, hu, rfl⟩ := hx
    simp [h u hu]
  unfold dictGet
  rw [hnone]

/-- C6: for a direct-message conversation whose user id is absent from the
user map, the lookup does not fail but falls back to
`"<id> (name unknown)"`, and that string is the one used both in the
console output and in the written file's name. -/
theorem dm_name_fallback {ε : Type} (w : World ε) (users : List User)
    (dm : Im) (rest : List Im) (fuel : Nat) (tr : List (Option String)) (msgs : List Msg)
    (him : w.ims = dm :: rest)
    (husers : ∀ u ∈ users, u.id ≠ dm.user)
    (hok : getHistory (w.history dm.id) fuel 100 = (tr, some (.ok msgs))) :
    dmName (getUserMap users) dm.user = dm.user ++ " (name unknown)" ∧
    Effect.consoleOut (dm.user ++ " (name unknown)")
      ∈ (getDirectMessages w (getUserMap users) false fuel).1 ∧
    Effect.fileWriteCall ("direct_messages/" ++ (dm.user ++ " (name unknown)") ++ ".json")
      ∈ (getDirectMessages w (getUserMap users) false fuel).1 := by
  have hname : dmName (getUserMap users) dm.user = dm.user ++ " (name unknown)" := by
    unfold dmName
    exact getUserMap_find_none users dm.user _ husers
  have h2 : (getHistory (w.history dm.id) fuel 100).2 = some (.ok msgs) := by
    rw [hok]
  refine ⟨hname, ?_, ?_⟩
  · simp [getDirectMessages, him, hname]
  · have hx : Effect.fileWriteCall ("direct_messages/" ++ (dm.user ++ " (name unknown)") ++ ".json")
        ∈ (exportDMs w.history (getUserMap users) fuel w.ims).1 := by
      rw [him, exportDMs]
      simp only [h2, hname]
      refine List.mem_append_left _ (List.mem_append_right _ ?_)
      exact List.mem_cons_of_mem _ (List.mem_cons_self _ _)
    have hsplit : (getDirectMessages w (getUserMap users) false fuel).1
        = (Effect.imListCall
            :: Effect.consoleOut "\nfound direct messages (1:1) with the following users:"
            :: w.ims.map (fun dm => Effect.consoleOut (dmName (getUserMap users) dm.user)))
          ++ [Effect.mkdirCall "direct_messages"]
          ++ (exportDMs w.history (getUserMap users) fuel w.ims).1 := rfl
    rw [hsplit]
    exact List.mem_append_right _ hx

/-- Witness for C6: the example workspace's direct message is with user
"U9", absent from the one-user map. -/
theorem dm_name_fallback_witness :
    dmName (getUserMap [⟨"U1", "alice"⟩]) "U9" = "U9" ++ " (name unknown)" ∧
    Effect.consoleOut ("U9" ++ " (name unknown)")
      ∈ (getDirectMessages exWorld (getUserMap [⟨"U1", "alice"⟩]) false 1).1 ∧
    Effect.fileWriteCall ("direct_messages/" ++ ("U9" ++ " (name unknown)") ++ ".json")
      ∈ (getDirectMessages exWorld (getUserMap [⟨"U1", "alice"⟩]) false 1).1 :=
  dm_name_fallback exWorld [⟨"U1", "alice"⟩] ⟨"D1", "U9"⟩ [] 1 [none] []
    rfl (by decide) (by decide)

/-! ## Orchestration: dry run and skip flags -/

theorem mainRun_dry_mem {ε : Type} (w : World ε) (tok : Option String)
    (sp sc sd : Bool) (fuel : Nat) :
    ∀ e ∈ (mainRun w ⟨tok, true, sp, sc, sd⟩ fuel).1,
      e = .authTestCall ∨ e = .usersListCall ∨ e = .channelsListCall ∨
      e = .groupsListCall ∨ e = .imListCall ∨ ∃ s, e = .consoleOut s := by
  cases sc <;> cases sp <;> cases sd <;>
    (intro e he;
     simp [mainRun, getChannels, getPrivateChannels, getDirectMessages] at he;
     aesop)

/-- C4 (amended): in a dry run the program issues the probe and list calls
(`auth.test` and `users.list` always happen; the per-kind list calls happen
unless skipped) but issues no info call, no history call, creates no
directory and writes no file — in particular `metadata.json` is not
written. -/
theorem dryRun_no_fetch_no_write {ε : Type} (w : World ε) (args : Args) (fuel : Nat)
    (hdry : args.dryRun = true) :
    Effect.authTestCall ∈ (mainRun w args fuel).1 ∧
    Effect.usersListCall ∈ (mainRun w args fuel).1 ∧
    ∀ e ∈ (mainRun w args fuel).1,
      e.isHistoryCall = false ∧ e.isMkdirCall = false ∧
      e.isFileWriteCall = false ∧ e.isInfoCall = false := by
  obtain ⟨tok, dr, sp, sc, sd⟩ := args
  dsimp only at hdry
  subst hdry
  refine ⟨?_, ?_, ?_⟩
  · cases sc <;> cases sp <;> cases sd <;>
      simp [mainRun, getChannels, getPrivateChannels, getDirectMessages]
  · cases sc <;> cases sp <;> cases sd <;>
      simp [mainRun, getChannels, getPrivateChannels, getDirectMessages]
  · intro e he
    rcases mainRun_dry_mem w tok sp sc sd fuel e he with rfl | rfl | rfl | rfl | rfl | ⟨s, rfl⟩ <;>
      simp [Effect.isHistoryCall, Effect.isMkdirCall, Effect.isFileWriteCall, Effect.isInfoCall]

/-- Counterexample to C4 as stated: a complete dry run over the example
workspace (one channel, one group, one direct message) issues no
`channels.info` or `groups.info` call at all, contradicting the claim that
a dry run issues info calls. -/
theorem dryRun_counterexample :
    (mainRun exWorld ⟨some "t", true, false, false, false⟩ 1).2 = true ∧
    (mainRun exWorld ⟨some "t", true, false, false, false⟩ 1).1.all
      (fun e => !e.isInfoCall) = true := by
  exact ⟨rfl, rfl⟩

/-- Witness for C4 at the example workspace. -/
theorem dryRun_no_fetch_no_write_witness :
    (⟨some "t", true, false, false, false⟩ : Args).dryRun = true ∧
    Effect.authTestCall ∈ (mainRun exWorld ⟨some "t", true, false, false, false⟩ 1).1 :=
  ⟨rfl, (dryRun_no_fetch_no_write exWorld ⟨some "t", true, false, false, false⟩ 1 rfl).1⟩

theorem exportDMs_mem {ε : Type} (hist : String → Option String → Nat → Except ε HistoryPage)
    (m : List (String × String)) (fuel : Nat) :
    ∀ (dms : List Im) (e : Effect), e ∈ (exportDMs hist m fuel dms).1 →
      (∃ s, e = .consoleOut s) ∨ (∃ id c n, e = .historyCall id c n) ∨
      (∃ p, e = .fileWriteCall p) := by
  intro dms
  induction dms with
  | nil =>
    intro e he
    simp [exportDMs] at he
  | cons dm rest ih =>
    intro e he
    rw [exportDMs] at he
    cases hout : (getHistory (hist dm.id) fuel 100).2 with
    | none =>
      simp [hout] at he
      aesop
    | some out =>
      cases out with
      | ok msgs =>
        simp [hout] at he
        aesop
      | remoteErr er =>
        simp [hout] at he
        aesop
      | indexErr =>
        simp [hout] at he
        aesop

theorem mainRun_skipboth_mem {ε : Type} (w : World ε) (tok : Option String)
    (dr : Bool) (fuel : Nat) :
    ∀ e ∈ (mainRun w ⟨tok, dr, true, true, false⟩ fuel).1,
      e = .authTestCall ∨ e = .usersListCall ∨ e = .imListCall ∨
      e = .mkdirCall "direct_messages" ∨ e = .fileWriteCall "metadata.json" ∨
      (∃ s, e = .consoleOut s) ∨ (∃ id c n, e = .historyCall id c n) ∨
      (∃ p, e = .fileWriteCall p) := by
  intro e he
  have hs := exportDMs_mem w.history (getUserMap w.users) fuel
  cases dr <;> simp [mainRun, getDirectMessages] at he <;> aesop

/-- C7: with both `--skipChannels` and `--skipPrivateChannels` set (and
direct messages not skipped), only the direct-message exporter runs: the
channel and private-channel list calls never happen, no info call happens,
and neither the `channels` nor the `private_channels` directory is ever
created, while the direct-message list call does happen. -/
theorem skip_channels_only_dms {ε : Type} (w : World ε) (args : Args) (fuel : Nat)
    (hsc : args.skipChannels = true) (hsp : args.skipPrivateChannels = true)
    (hsd : args.skipDirectMessages = false) :
    Effect.imListCall ∈ (mainRun w args fuel).1 ∧
    ∀ e ∈ (mainRun w args fuel).1,
      e ≠ .channelsListCall ∧ e ≠ .groupsListCall ∧ e.isInfoCall = false ∧
      e ≠ .mkdirCall "channels" ∧ e ≠ .mkdirCall "private_channels" := by
  obtain ⟨tok, dr, sp, sc, sd⟩ := args
  dsimp only at hsc hsp hsd
  subst hsc
  subst hsp
  subst hsd
  constructor
  · cases dr <;> simp [mainRun, getDirectMessages]
  · intro e he
    rcases mainRun_skipboth_mem w tok dr fuel e he with
      rfl | rfl | rfl | rfl | rfl | ⟨s, rfl⟩ | ⟨id, c, n, rfl⟩ | ⟨p, rfl⟩ <;>
      refine ⟨?_, ?_, ?_, ?_, ?_⟩ <;>
      first
        | decide
        | simp [Effect.isInfoCall]

/-- Witness for C7 at the example workspace, with the dry-run flag off. -/
theorem skip_channels_only_dms_witness :
    (⟨some "t", false, true, true, false⟩ : Args).skipChannels = true ∧
    Effect.imListCall ∈ (mainRun exWorld ⟨some "t", false, true, true, false⟩ 1).1 :=
  ⟨rfl, (skip_channels_only_dms exWorld ⟨some "t", false, true, true, false⟩ 1 rfl rfl rfl).1⟩

/-! ## Orchestration: argument parsing -/

theorem mem_ite_of_mem_both {α : Type} (c : Prop) [Decidable c] (x : α) (l1 l2 : List α)
    (h1 : x ∈ l1) (h2 : x ∈ l2) : x ∈ (if c then l1 else l2) := by
  split <;> assumption

/-- C8 (amended): `--token` is declared without `required=True`, so an
invocation that omits it parses successfully with `token = None`, and the
run proceeds: whatever the flags, the auth-test remote call is issued. -/
theorem token_not_required {ε : Type} (w : World ε) (fuel : Nat) :
    parseArgs [] = some ⟨none, false, false, false, false⟩ ∧
    ∀ args : Args, Effect.authTestCall ∈ (mainRun w args fuel).1 := by
  refine ⟨rfl, ?_⟩
  intro args
  unfold mainRun
  simp only [apply_ite Prod.fst]
  repeat' apply mem_ite_of_mem_both
  all_goals simp

/-- Counterexample to C8 as stated: on the empty argument vector, argument
parsing succeeds (with a null token) and the program still makes a remote
call — the auth test — against the example workspace. -/
theorem token_required_counterexample :
    parseArgs [] = some ⟨none, false, false, false, false⟩ ∧
    runProgram exWorld [] 1 ≠ none ∧
    Effect.authTestCall ∈ ((runProgram exWorld [] 1).getD ([], false)).1 := by
  exact ⟨rfl, by decide, by decide⟩
